import Mathlib

/-!
Verification of the statistics aggregator and request executors of the
xcurl HTTP load-sampling tool, as a shallow embedding of `src/main.rs`
(functions `statistics`, `call_curl`, `call_builtin`) and
`src/webrequest.rs` (`WebClient::build`).

Machine integers are modelled as `Nat`; `u32` arithmetic in the
aggregator is modelled with explicit overflow checks (Rust integer
overflow is a program error that aborts a checked build), the cast
`response.len() as u32` is modelled as `% 2^32`, and every Rust panic
site (`Option::unwrap` on `None`, integer division by zero, slice
indexing out of bounds, arithmetic overflow) is modelled by the
`RustResult.panic` outcome.  External effects (the wall clock, the
spawned curl process, the reqwest client, clap parsing, URL parsing)
are inputs to the embedded functions.
-/

namespace XCurl

/-- Modulus of the Rust `u32` type. -/
def u32Mod : Nat := 4294967296

/-- Result of running a piece of Rust code that may panic:
either a value, or a panic (unwrap on `None`, out-of-bounds index,
division by zero, arithmetic overflow in a checked build). -/
inductive RustResult (α : Type) where
  | ok : α → RustResult α
  | panic : RustResult α

/-- Sequencing of possibly-panicking computations. -/
def RustResult.bind {α β : Type} : RustResult α → (α → RustResult β) → RustResult β
  | .ok a, f => f a
  | .panic, _ => .panic

/-- Mapping over a possibly-panicking computation. -/
def RustResult.map {α β : Type} (f : α → β) : RustResult α → RustResult β
  | .ok a => .ok (f a)
  | .panic => .panic

@[simp] theorem RustResult.bind_ok {α β : Type} (a : α) (f : α → RustResult β) :
    (RustResult.ok a).bind f = f a := rfl

@[simp] theorem RustResult.bind_panic {α β : Type} (f : α → RustResult β) :
    (RustResult.panic : RustResult α).bind f = .panic := rfl

@[simp] theorem RustResult.map_ok {α β : Type} (f : α → β) (a : α) :
    (RustResult.ok a).map f = .ok (f a) := rfl

@[simp] theorem RustResult.map_panic {α β : Type} (f : α → β) :
    (RustResult.panic : RustResult α).map f = .panic := rfl

/-- `std::time::Duration`: seconds plus a sub-second nanosecond part,
which the Rust type keeps strictly below `10^9`. -/
structure Duration where
  secs : Nat
  nanos : Nat
  nanos_lt : nanos < 1000000000

/-- `Duration::subsec_millis`: the millisecond component of the
sub-second part (total milliseconds are ignored). -/
def Duration.subsec_millis (d : Duration) : Nat := d.nanos / 1000000

/-- The `Response` struct of `main.rs` (one outcome sample). -/
structure Response where
  time : Duration
  status_code : String
  exit_status : Int
  error : String

/-- The `Metrics` struct of `main.rs` (the report).  The
`HashMap<String, usize>` is modelled semantically as a partial map
from keys to counts. -/
structure Metrics where
  mean_time : Nat
  max_time : Nat
  min_time : Nat
  variance_time : Nat
  quartile_25 : Nat
  quartile_75 : Nat
  status_count : String → Option Nat
  error_count : Nat

/-- `u32` addition (`acc.add(x)` in the reduce): panics on overflow. -/
def checkedAdd (a b : Nat) : RustResult Nat :=
  if a + b < u32Mod then .ok (a + b) else .panic

/-- `max(a, b)` step of the max reduce (never panics). -/
def maxR (a b : Nat) : RustResult Nat := .ok (max a b)

/-- `min(a, b)` step of the min reduce (never panics). -/
def minR (a b : Nat) : RustResult Nat := .ok (min a b)

/-- Fold of a possibly-panicking binary step over a list. -/
def foldR (f : Nat → Nat → RustResult Nat) (acc : Nat) : List Nat → RustResult Nat
  | [] => .ok acc
  | x :: xs => (f acc x).bind (fun a => foldR f a xs)

/-- `Iterator::reduce(f).unwrap()`: panics on the empty sequence,
otherwise folds `f` with the first element as accumulator. -/
def reduceR (f : Nat → Nat → RustResult Nat) : List Nat → RustResult Nat
  | [] => .panic
  | x :: xs => foldR f x xs

/-- `u32::abs_diff`. -/
def absDiff (a b : Nat) : Nat := if b ≤ a then a - b else b - a

/-- `u32` division: panics on a zero divisor. -/
def u32Div (a b : Nat) : RustResult Nat :=
  if b = 0 then .panic else .ok (a / b)

/-- Slice indexing `l[i]`: panics when out of bounds. -/
def indexR (l : List Nat) (i : Nat) : RustResult Nat :=
  if h : i < l.length then .ok l[i] else .panic

/-- `quartile.sort()` on the collected latency values. -/
def sortVals (l : List Nat) : List Nat := l.insertionSort (· ≤ ·)

/-- One step of the status-histogram fold of `statistics`:
look the key up, insert count+1 if present, else insert 1. -/
def statusStep (acc : String → Option Nat) (sc : String) : String → Option Nat :=
  match acc sc with
  | some n => fun s => if s = sc then some (n + 1) else acc s
  | none => fun s => if s = sc then some 1 else acc s

/-- The status-histogram fold of `statistics` over the status codes. -/
def statusCount (l : List String) : String → Option Nat :=
  l.foldl statusStep (fun _ => none)

/-- The error count of `statistics`: length of the list of non-zero
exit statuses. -/
def errorCount (l : List Response) : Nat :=
  ((l.map (fun x => x.exit_status)).filter (fun e => e != 0)).length

/-- The latency values `statistics` works on: the sub-second
millisecond component of each sample duration. -/
def vals (l : List Response) : List Nat :=
  l.map (fun x => x.time.subsec_millis)

/-- The divisor `response.len() as u32` used by `statistics`: the
length truncated to 32 bits. -/
def lenU32 (l : List Response) : Nat := l.length % u32Mod

/-- The `statistics` function of `main.rs`, stage for stage:
mean (sum reduce, unwrap, divide by `len as u32`), max reduce, min
reduce, mean absolute deviation (`abs_diff` from the mean, sum
reduce, divide by `len as u32`), sort and pick the two quartiles at
indices `len*1/4` and `len*3/4`, status histogram fold, error count. -/
def statistics (response : List Response) : RustResult Metrics :=
  (reduceR checkedAdd (vals response)).bind fun sum1 =>
  (u32Div sum1 (lenU32 response)).bind fun mean_time =>
  (reduceR maxR (vals response)).bind fun max_time =>
  (reduceR minR (vals response)).bind fun min_time =>
  (reduceR checkedAdd ((vals response).map (fun x => absDiff mean_time x))).bind fun sumdev =>
  (u32Div sumdev (lenU32 response)).bind fun variance_time =>
  (indexR (sortVals (vals response)) (response.length * 1 / 4)).bind fun quartile_25 =>
  (indexR (sortVals (vals response)) (response.length * 3 / 4)).bind fun quartile_75 =>
  RustResult.ok
    { mean_time := mean_time
      max_time := max_time
      min_time := min_time
      variance_time := variance_time
      quartile_25 := quartile_25
      quartile_75 := quartile_75
      status_count := statusCount (response.map (fun x => x.status_code))
      error_count := errorCount response }

/-- Outcome of the external curl invocation in `call_curl`: the spawn
can fail (`Command::output` returns an error), or the process
completes with an optional exit code (`None` when killed by a
signal), stdout and stderr. -/
inductive CurlOutcome where
  | spawnError : CurlOutcome
  | completed : Option Int → String → String → CurlOutcome

/-- The `call_curl` function of `main.rs`.  The process outcome and
the elapsed wall-clock time are external inputs.  `Command::output`
is unwrapped (panic when the spawn failed), `status.code()` is
unwrapped (panic when the process had no exit code); a non-zero exit
code yields the sentinel status `"client error"`, a zero exit code
yields the stdout text as the status. -/
def call_curl (outcome : CurlOutcome) (delta : Duration) : RustResult Response :=
  match outcome with
  | .spawnError => .panic
  | .completed none _ _ => .panic
  | .completed (some code) stdout stderr =>
      .ok { time := delta
            status_code := if code ≠ 0 then "client error" else stdout
            exit_status := code
            error := stderr }

/-- The `call_builtin` function of `main.rs`.  The outcome of
`WebClient::build` and of `WebClient::send` are external inputs (the
ok payload of the send is the rendered response status).  The
function initialises `exit_status = 0`, `status_code = "client
error"`, `error = ""` and overwrites them according to the two
outcomes; it returns a `Response` on every path. -/
def call_builtin (clientResult : Except String Unit)
    (sendResult : Except String String) (delta : Duration) : Response :=
  match clientResult with
  | .error e => { time := delta, status_code := "client error", exit_status := 1, error := e }
  | .ok _ =>
    match sendResult with
    | .error e => { time := delta, status_code := "client error", exit_status := 1, error := e }
    | .ok st => { time := delta, status_code := st, exit_status := 0, error := "" }

/-- The `HttpMethod` enum of `webrequest.rs`. -/
inductive HttpMethod where
  | options | get | post | put | delete | head | trace | connect | patch

/-- The clap-parsed `Args` struct of `webrequest.rs`. -/
structure WRArgs where
  url : String
  data : Option String
  user_agent : Option String
  method : HttpMethod
  header : List String
  insecure : Bool
  http09 : Bool
  http10 : Bool
  http11 : Bool
  http2 : Bool
  http3 : Bool
  tlsv1 : Bool
  tlsv10 : Bool
  tlsv11 : Bool
  tlsv12 : Bool
  tlsv13 : Bool
  tls_max : Option String

/-- Outcomes of the external library calls made by
`WebClient::build`: `Url::parse`, `ClientBuilder::build` and
`RequestBuilder::build`. -/
structure BuildExternals where
  urlParse : String → Except String Unit
  clientBuild : Except String Unit
  requestBuild : Except String Unit

/-- The error message produced for an invalid `--tls-max` value
(the `format!` string of `webrequest.rs`, line 114). -/
def tlsMaxMessage (v : String) : String :=
  "error: invalid value \x27" ++ v ++
    "\x27 for \x27--tls-max <VERSION>\x27\n possible values: 1.0, 1.1, 1.2, 1.3"

/-- The `--tls-max` match of `WebClient::build`: the four accepted
versions configure the client, everything else is an error naming
the value and the accepted set. -/
def tlsMaxCheck (v : String) : Except String Unit :=
  if v = "1.0" then .ok ()
  else if v = "1.1" then .ok ()
  else if v = "1.2" then .ok ()
  else if v = "1.3" then .ok ()
  else .error (tlsMaxMessage v)

/-- The URL normalisation of `WebClient::build`: prefix `http://`
unless the string already contains `://`. -/
def buildUrlString (u : String) : String :=
  if (u.splitOn "://").length > 1 then u else "http://" ++ u

/-- The header loop of `WebClient::build`: each row is split on
`:`, trimmed, and entries `h[0]` and `h[1]` are used — indexing
`h[1]` panics when a row has no colon. -/
def processHeaders : List String → RustResult Unit
  | [] => .ok ()
  | row :: rest =>
      let h := (row.splitOn ":").map String.trim
      if 1 < h.length then processHeaders rest else .panic

/-- `WebClient::build` of `webrequest.rs`, stage for stage: clap
parse (outcome supplied as input), URL parse, the pure client
configuration flags, the `--tls-max` check, `ClientBuilder::build`,
the request configuration, the header loop, and
`RequestBuilder::build`.  Library errors and the tls-max error
propagate with `?`; a colon-free header panics. -/
def WebClient.build (parsed : Except String WRArgs) (ext : BuildExternals) :
    RustResult (Except String Unit) :=
  match parsed with
  | .error e => .ok (.error e)
  | .ok a =>
    match ext.urlParse (buildUrlString a.url) with
    | .error e => .ok (.error e)
    | .ok _ =>
      match (match a.tls_max with | some v => tlsMaxCheck v | none => .ok ()) with
      | .error e => .ok (.error e)
      | .ok _ =>
        match ext.clientBuild with
        | .error e => .ok (.error e)
        | .ok _ =>
          (processHeaders a.header).bind fun _ =>
          match ext.requestBuild with
          | .error e => .ok (.error e)
          | .ok _ => .ok (.ok ())

/-! ### Basic facts about the embedded primitives -/

theorem subsec_millis_lt (d : Duration) : d.subsec_millis < 1000 := by
  have h := d.nanos_lt
  have : d.nanos / 1000000 < 1000 := by
    apply Nat.div_lt_of_lt_mul
    omega
  simpa [Duration.subsec_millis] using this

theorem vals_lt (l : List Response) : ∀ v ∈ vals l, v < 1000 := by
  intro v hv
  simp only [vals, List.mem_map] at hv
  obtain ⟨x, _, rfl⟩ := hv
  exact subsec_millis_lt x.time

theorem u32Mod_pos : 0 < u32Mod := by decide

theorem foldR_checkedAdd (xs : List Nat) (acc : Nat) (hacc : acc < u32Mod) :
    foldR checkedAdd acc xs =
      if acc + xs.sum < u32Mod then .ok (acc + xs.sum) else .panic := by
  induction xs generalizing acc with
  | nil => simp [foldR, hacc]
  | cons x xs ih =>
    simp only [foldR, checkedAdd, List.sum_cons]
    by_cases h : acc + x < u32Mod
    · rw [if_pos h]
      simp only [RustResult.bind]
      rw [ih (acc + x) h]
      have : acc + (x + xs.sum) = acc + x + xs.sum := by omega
      rw [this]
    · rw [if_neg h]
      simp only [RustResult.bind]
      rw [if_neg (by omega)]

theorem reduceR_checkedAdd (x : Nat) (xs : List Nat) (hx : x < u32Mod) :
    reduceR checkedAdd (x :: xs) =
      if (x :: xs).sum < u32Mod then .ok (x :: xs).sum else .panic := by
  simp only [reduceR, List.sum_cons]
  rw [foldR_checkedAdd xs x hx]

theorem foldR_pure (g : Nat → Nat → Nat) (xs : List Nat) (acc : Nat) :
    foldR (fun a b => .ok (g a b)) acc xs = .ok (xs.foldl g acc) := by
  induction xs generalizing acc with
  | nil => simp [foldR, List.foldl]
  | cons x xs ih => simp [foldR, RustResult.bind, List.foldl, ih]

/-- Maximum of a latency list as the code computes it (first element
as the accumulator of a `max` fold); `0` for the empty list. -/
def maxOf : List Nat → Nat
  | [] => 0
  | x :: xs => xs.foldl max x

/-- Minimum of a latency list as the code computes it. -/
def minOf : List Nat → Nat
  | [] => 0
  | x :: xs => xs.foldl min x

theorem reduceR_maxR (x : Nat) (xs : List Nat) :
    reduceR maxR (x :: xs) = .ok (maxOf (x :: xs)) := by
  show foldR maxR x xs = _
  exact foldR_pure max xs x

theorem reduceR_minR (x : Nat) (xs : List Nat) :
    reduceR minR (x :: xs) = .ok (minOf (x :: xs)) := by
  show foldR minR x xs = _
  exact foldR_pure min xs x

theorem le_foldl_max (xs : List Nat) : ∀ a, a ≤ xs.foldl max a := by
  induction xs with
  | nil => intro a; simp [List.foldl]
  | cons x xs ih =>
    intro a
    exact (Nat.le_max_left a x).trans (ih (max a x))

theorem mem_le_foldl_max (xs : List Nat) : ∀ a v, v ∈ xs → v ≤ xs.foldl max a := by
  induction xs with
  | nil => intro a v hv; cases hv
  | cons x xs ih =>
    intro a v hv
    rcases List.mem_cons.1 hv with h | h
    · subst h
      exact (Nat.le_max_right a v).trans (le_foldl_max xs (max a v))
    · exact ih (max a x) v h

theorem foldl_max_mem (xs : List Nat) : ∀ a, xs.foldl max a ∈ a :: xs := by
  induction xs with
  | nil => intro a; simp [List.foldl]
  | cons x xs ih =>
    intro a
    have h := ih (max a x)
    rcases List.mem_cons.1 h with h | h
    · rcases max_choice a x with hc | hc <;> rw [List.foldl] <;> rw [h, hc]
      · exact List.mem_cons_self _ _
      · exact List.mem_cons_of_mem _ (List.mem_cons_self _ _)
    · exact List.mem_cons_of_mem _ (List.mem_cons_of_mem _ h)

theorem foldl_min_le (xs : List Nat) : ∀ a, xs.foldl min a ≤ a := by
  induction xs with
  | nil => intro a; simp [List.foldl]
  | cons x xs ih =>
    intro a
    exact (ih (min a x)).trans (Nat.min_le_left a x)

theorem foldl_min_le_mem (xs : List Nat) : ∀ a v, v ∈ xs → xs.foldl min a ≤ v := by
  induction xs with
  | nil => intro a v hv; cases hv
  | cons x xs ih =>
    intro a v hv
    rcases List.mem_cons.1 hv with h | h
    · subst h
      exact (foldl_min_le xs (min a v)).trans (Nat.min_le_right a v)
    · exact ih (min a x) v h

theorem foldl_min_mem (xs : List Nat) : ∀ a, xs.foldl min a ∈ a :: xs := by
  induction xs with
  | nil => intro a; simp [List.foldl]
  | cons x xs ih =>
    intro a
    have h := ih (min a x)
    rcases List.mem_cons.1 h with h | h
    · rcases min_choice a x with hc | hc <;> rw [List.foldl] <;> rw [h, hc]
      · exact List.mem_cons_self _ _
      · exact List.mem_cons_of_mem _ (List.mem_cons_self _ _)
    · exact List.mem_cons_of_mem _ (List.mem_cons_of_mem _ h)

theorem maxOf_mem (l : List Nat) (h : l ≠ []) : maxOf l ∈ l := by
  cases l with
  | nil => exact absurd rfl h
  | cons x xs => exact foldl_max_mem xs x

theorem le_maxOf (l : List Nat) (v : Nat) (hv : v ∈ l) : v ≤ maxOf l := by
  cases l with
  | nil => cases hv
  | cons x xs =>
    rcases List.mem_cons.1 hv with h | h
    · subst h; exact le_foldl_max xs v
    · exact mem_le_foldl_max xs x v h

theorem minOf_mem (l : List Nat) (h : l ≠ []) : minOf l ∈ l := by
  cases l with
  | nil => exact absurd rfl h
  | cons x xs => exact foldl_min_mem xs x

theorem minOf_le (l : List Nat) (v : Nat) (hv : v ∈ l) : minOf l ≤ v := by
  cases l with
  | nil => cases hv
  | cons x xs =>
    rcases List.mem_cons.1 hv with h | h
    · subst h; exact foldl_min_le xs v
    · exact foldl_min_le_mem xs x v h

theorem absDiff_le_max (a b : Nat) : absDiff a b ≤ max a b := by
  simp only [absDiff]
  split <;> omega

/-! ### Closed form of `statistics` on non-empty input -/

/-- The mean as `statistics` computes it. -/
def meanOf (l : List Response) : Nat := (vals l).sum / lenU32 l

/-- The list of absolute deviations from the mean. -/
def devList (l : List Response) : List Nat :=
  (vals l).map (fun x => absDiff (meanOf l) x)

/-- The report `statistics` produces when no stage panics. -/
def metricsOf (l : List Response) : Metrics :=
  { mean_time := meanOf l
    max_time := maxOf (vals l)
    min_time := minOf (vals l)
    variance_time := (devList l).sum / lenU32 l
    quartile_25 := (sortVals (vals l)).getD (l.length * 1 / 4) 0
    quartile_75 := (sortVals (vals l)).getD (l.length * 3 / 4) 0
    status_count := statusCount (l.map (fun x => x.status_code))
    error_count := errorCount l }

/-- The conditions under which `statistics` does not panic on a
non-empty input: the latency sum fits in a `u32`, the truncated
length is a non-zero divisor, and the deviation sum fits in a
`u32`. -/
def statsOk (l : List Response) : Prop :=
  (vals l).sum < u32Mod ∧ lenU32 l ≠ 0 ∧ (devList l).sum < u32Mod

instance (l : List Response) : Decidable (statsOk l) := by
  unfold statsOk; infer_instance

theorem quarter_lt (n : Nat) (h : 0 < n) : n * 1 / 4 < n := by
  have : n * 1 = n := Nat.mul_one n
  rw [this]
  exact Nat.div_lt_self h (by omega)

theorem three_quarter_lt (n : Nat) (h : 0 < n) : n * 3 / 4 < n := by
  rw [Nat.div_lt_iff_lt_mul (by omega : 0 < 4)]
  omega

theorem length_sortVals (xs : List Nat) : (sortVals xs).length = xs.length :=
  List.length_insertionSort (· ≤ ·) xs

theorem indexR_getD (xs : List Nat) (i : Nat) (h : i < xs.length) :
    indexR xs i = .ok (xs.getD i 0) := by
  simp [indexR, h, List.getD_eq_getElem?_getD, List.getElem?_eq_getElem h]

theorem vals_ne_nil (l : List Response) (hne : l ≠ []) : vals l ≠ [] := by
  simp only [vals, ne_eq, List.map_eq_nil_iff]
  exact hne

theorem reduceR_checkedAdd_ne (xs : List Nat) (hne : xs ≠ [])
    (hx : ∀ x ∈ xs, x < u32Mod) :
    reduceR checkedAdd xs = if xs.sum < u32Mod then .ok xs.sum else .panic := by
  cases xs with
  | nil => exact absurd rfl hne
  | cons x xs => exact reduceR_checkedAdd x xs (hx x (List.mem_cons_self x xs))

theorem reduceR_maxR_ne (xs : List Nat) (hne : xs ≠ []) :
    reduceR maxR xs = .ok (maxOf xs) := by
  cases xs with
  | nil => exact absurd rfl hne
  | cons x xs => exact reduceR_maxR x xs

theorem reduceR_minR_ne (xs : List Nat) (hne : xs ≠ []) :
    reduceR minR xs = .ok (minOf xs) := by
  cases xs with
  | nil => exact absurd rfl hne
  | cons x xs => exact reduceR_minR x xs

theorem meanOf_lt (l : List Response) (h1 : (vals l).sum < u32Mod) :
    meanOf l < u32Mod :=
  lt_of_le_of_lt (Nat.div_le_self _ _) h1

theorem devList_bound (l : List Response) (h1 : (vals l).sum < u32Mod) :
    ∀ x ∈ devList l, x < u32Mod := by
  intro x hx
  simp only [devList, List.mem_map] at hx
  obtain ⟨v, hv, rfl⟩ := hx
  refine lt_of_le_of_lt (absDiff_le_max _ _) (max_lt (meanOf_lt l h1) ?_)
  exact lt_trans (vals_lt l v hv) (by decide)

theorem statistics_char (l : List Response) (hne : l ≠ []) :
    statistics l = if statsOk l then .ok (metricsOf l) else .panic := by
  have hvne : vals l ≠ [] := vals_ne_nil l hne
  have hlen : 0 < l.length := List.length_pos.2 hne
  have hvlt : ∀ x ∈ vals l, x < u32Mod :=
    fun x hx => lt_trans (vals_lt l x hx) (by decide)
  unfold statistics
  rw [reduceR_checkedAdd_ne (vals l) hvne hvlt]
  by_cases h1 : (vals l).sum < u32Mod
  · rw [if_pos h1]
    simp only [RustResult.bind_ok]
    by_cases h2 : lenU32 l = 0
    · simp only [u32Div, if_pos h2, RustResult.bind_panic]
      rw [if_neg]
      intro hok
      exact hok.2.1 h2
    · simp only [u32Div, if_neg h2, RustResult.bind_ok]
      rw [reduceR_maxR_ne (vals l) hvne, reduceR_minR_ne (vals l) hvne]
      simp only [RustResult.bind_ok]
      have hmean : (vals l).sum / lenU32 l = meanOf l := rfl
      rw [hmean]
      have hdev : (vals l).map (fun x => absDiff (meanOf l) x) = devList l := rfl
      rw [hdev]
      rw [reduceR_checkedAdd_ne (devList l) (by simpa [devList, List.map_eq_nil_iff, vals] using hne)
        (devList_bound l h1)]
      by_cases h3 : (devList l).sum < u32Mod
      · rw [if_pos h3]
        simp only [RustResult.bind_ok, u32Div, if_neg h2]
        have hq1 : l.length * 1 / 4 < (sortVals (vals l)).length := by
          rw [length_sortVals]
          simpa [vals] using quarter_lt _ hlen
        have hq3 : l.length * 3 / 4 < (sortVals (vals l)).length := by
          rw [length_sortVals]
          simpa [vals] using three_quarter_lt _ hlen
        rw [indexR_getD _ _ hq1, indexR_getD _ _ hq3]
        simp only [RustResult.bind_ok]
        rw [if_pos ⟨h1, h2, h3⟩]
        rfl
      · rw [if_neg h3]
        simp only [RustResult.bind_panic]
        rw [if_neg]
        intro hok
        exact h3 hok.2.2
  · rw [if_neg h1]
    simp only [RustResult.bind_panic]
    rw [if_neg]
    intro hok
    exact h1 hok.1

theorem statistics_nil : statistics ([] : List Response) = .panic := rfl

theorem statistics_ok_elim (l : List Response) (m : Metrics)
    (h : statistics l = .ok m) :
    l ≠ [] ∧ statsOk l ∧ m = metricsOf l := by
  by_cases hne : l = []
  · subst hne
    rw [statistics_nil] at h
    cases h
  · rw [statistics_char l hne] at h
    by_cases hok : statsOk l
    · rw [if_pos hok] at h
      cases h
      exact ⟨hne, hok, rfl⟩
    · rw [if_neg hok] at h
      cases h

/-! ### Sum bounds -/

theorem sum_le_length_mul (xs : List Nat) (M : Nat) (h : ∀ x ∈ xs, x ≤ M) :
    xs.sum ≤ xs.length * M := by
  induction xs with
  | nil => simp
  | cons x xs ih =>
    simp only [List.sum_cons, List.length_cons]
    have hx := h x (List.mem_cons_self x xs)
    have hxs := ih (fun y hy => h y (List.mem_cons_of_mem x hy))
    calc x + xs.sum ≤ M + xs.length * M := Nat.add_le_add hx hxs
    _ = (xs.length + 1) * M := by ring

theorem length_mul_le_sum (xs : List Nat) (m : Nat) (h : ∀ x ∈ xs, m ≤ x) :
    xs.length * m ≤ xs.sum := by
  induction xs with
  | nil => simp
  | cons x xs ih =>
    simp only [List.sum_cons, List.length_cons]
    have hx := h x (List.mem_cons_self x xs)
    have hxs := ih (fun y hy => h y (List.mem_cons_of_mem x hy))
    calc (xs.length + 1) * m = m + xs.length * m := by ring
    _ ≤ x + xs.sum := Nat.add_le_add hx hxs

theorem length_le_sum_of_one_le (xs : List Nat) (h : ∀ x ∈ xs, 1 ≤ x) :
    xs.length ≤ xs.sum := by
  have := length_mul_le_sum xs 1 h
  simpa using this

theorem vals_length (l : List Response) : (vals l).length = l.length := by
  simp [vals]

theorem devList_length (l : List Response) : (devList l).length = l.length := by
  simp [devList, vals_length]

/-! ### Ordering facts about the closed-form report -/

theorem maxOf_vals_lt (l : List Response) (hne : l ≠ []) :
    maxOf (vals l) < 1000 :=
  vals_lt l _ (maxOf_mem (vals l) (vals_ne_nil l hne))

theorem minOf_vals_lt (l : List Response) (hne : l ≠ []) :
    minOf (vals l) < 1000 :=
  vals_lt l _ (minOf_mem (vals l) (vals_ne_nil l hne))

theorem lenU32_le_length (l : List Response) : lenU32 l ≤ l.length :=
  Nat.mod_le _ _

theorem minOf_le_meanOf (l : List Response) (h2 : lenU32 l ≠ 0) :
    minOf (vals l) ≤ meanOf l := by
  have hd : 0 < lenU32 l := Nat.pos_of_ne_zero h2
  rw [meanOf, Nat.le_div_iff_mul_le hd]
  calc minOf (vals l) * lenU32 l ≤ minOf (vals l) * l.length :=
        Nat.mul_le_mul_left _ (lenU32_le_length l)
  _ = (vals l).length * minOf (vals l) := by rw [vals_length]; ring
  _ ≤ (vals l).sum := length_mul_le_sum _ _ (fun x hx => minOf_le (vals l) x hx)

theorem meanOf_le_maxOf (l : List Response) (hne : l ≠ [])
    (hok : statsOk l) : meanOf l ≤ maxOf (vals l) := by
  obtain ⟨h1, h2, h3⟩ := hok
  have hd : 0 < lenU32 l := Nat.pos_of_ne_zero h2
  by_cases hsmall : l.length < u32Mod
  · have hdl : lenU32 l = l.length := Nat.mod_eq_of_lt hsmall
    rw [meanOf, hdl]
    have hsum : (vals l).sum ≤ l.length * maxOf (vals l) := by
      have := sum_le_length_mul (vals l) (maxOf (vals l))
        (fun x hx => le_maxOf (vals l) x hx)
      rwa [vals_length] at this
    have hlenpos : 0 < l.length := List.length_pos.2 hne
    calc (vals l).sum / l.length ≤ l.length * maxOf (vals l) / l.length :=
          Nat.div_le_div_right hsum
    _ = maxOf (vals l) := by rw [Nat.mul_div_cancel_left _ hlenpos]
  · by_contra hcon
    push_neg at hcon
    have hall : ∀ x ∈ devList l, 1 ≤ x := by
      intro x hx
      simp only [devList, List.mem_map] at hx
      obtain ⟨v, hv, rfl⟩ := hx
      have hvm : v ≤ maxOf (vals l) := le_maxOf (vals l) v hv
      have : v < meanOf l := lt_of_le_of_lt hvm hcon
      simp only [absDiff]
      split <;> omega
    have hlen : (devList l).length ≤ (devList l).sum :=
      length_le_sum_of_one_le _ hall
    rw [devList_length] at hlen
    have : u32Mod ≤ (devList l).sum := le_trans (le_of_not_lt hsmall) hlen
    omega

theorem meanOf_lt_1000 (l : List Response) (hne : l ≠ []) (hok : statsOk l) :
    meanOf l < 1000 :=
  lt_of_le_of_lt (meanOf_le_maxOf l hne hok) (maxOf_vals_lt l hne)

theorem devList_le_999 (l : List Response) (hne : l ≠ []) (hok : statsOk l) :
    ∀ x ∈ devList l, x ≤ 999 := by
  intro x hx
  simp only [devList, List.mem_map] at hx
  obtain ⟨v, hv, rfl⟩ := hx
  have hm : meanOf l ≤ 999 := by
    have := meanOf_lt_1000 l hne hok
    omega
  have hvlt : v ≤ 999 := by
    have := vals_lt l v hv
    omega
  have := absDiff_le_max (meanOf l) v
  have := max_le hm hvlt
  omega

theorem variance_lt_1000 (l : List Response) (hne : l ≠ []) (hok : statsOk l)
    (hsmall : l.length < u32Mod) : (devList l).sum / lenU32 l < 1000 := by
  have hdl : lenU32 l = l.length := Nat.mod_eq_of_lt hsmall
  have hlenpos : 0 < l.length := List.length_pos.2 hne
  have hsum : (devList l).sum ≤ l.length * 999 := by
    have := sum_le_length_mul (devList l) 999 (devList_le_999 l hne hok)
    rwa [devList_length] at this
  rw [hdl]
  calc (devList l).sum / l.length ≤ l.length * 999 / l.length :=
        Nat.div_le_div_right hsum
  _ = 999 := Nat.mul_div_cancel_left _ hlenpos
  _ < 1000 := by omega

theorem sortVals_getD_mem (xs : List Nat) (i : Nat) (h : i < xs.length) :
    (sortVals xs).getD i 0 ∈ xs := by
  have hlen : i < (sortVals xs).length := by rwa [length_sortVals]
  rw [List.getD_eq_getElem?_getD, List.getElem?_eq_getElem hlen]
  simp only [Option.getD_some]
  have : (sortVals xs)[i] ∈ sortVals xs := List.getElem_mem hlen
  exact (List.mem_insertionSort (· ≤ ·)).1 this

theorem quartile25_mem (l : List Response) (hne : l ≠ []) :
    (sortVals (vals l)).getD (l.length * 1 / 4) 0 ∈ vals l := by
  apply sortVals_getD_mem
  rw [vals_length]
  exact quarter_lt _ (List.length_pos.2 hne)

theorem quartile75_mem (l : List Response) (hne : l ≠ []) :
    (sortVals (vals l)).getD (l.length * 3 / 4) 0 ∈ vals l := by
  apply sortVals_getD_mem
  rw [vals_length]
  exact three_quarter_lt _ (List.length_pos.2 hne)

/-- Extract the value of a non-panicking computation (with a default
for the panic case); used to name concrete reports in witnesses. -/
def RustResult.getD {α : Type} : RustResult α → α → α
  | .ok a, _ => a
  | .panic, d => d

/-- An all-zero report, used only as the default of
`RustResult.getD`. -/
def metricsDefault : Metrics :=
  { mean_time := 0, max_time := 0, min_time := 0, variance_time := 0
    quartile_25 := 0, quartile_75 := 0
    status_count := fun _ => none, error_count := 0 }

/-! ### Concrete sample data -/

/-- A duration of 0 ms. -/
def durMs0 : Duration := ⟨0, 0, by omega⟩

/-- A duration of 1 ms. -/
def durMs1 : Duration := ⟨0, 1000000, by omega⟩

/-- A duration of 2 ms. -/
def durMs2 : Duration := ⟨0, 2000000, by omega⟩

/-- A duration of 7 ms. -/
def durMs7 : Duration := ⟨0, 7000000, by omega⟩

/-- A sample with a given duration, status and exit status. -/
def sample (d : Duration) (sc : String) (e : Int) : Response :=
  { time := d, status_code := sc, exit_status := e, error := "" }

/-- A four-sample run with latencies 7, 1, 2, 0 ms. -/
def list4 : List Response :=
  [sample durMs7 "200" 0, sample durMs1 "200" 0,
   sample durMs2 "500" 1, sample durMs0 "200" 0]

/-- A two-sample run with latencies 0 and 1 ms. -/
def list2 : List Response :=
  [sample durMs0 "200" 0, sample durMs1 "200" 0]

/-! ### Claims C1 to C5, C9, C10 -/

/-- C1, counterexample: aggregating the empty sample sequence does
not surface an error condition — it panics (the `reduce(...).unwrap()`
of the mean computation unwraps `None`), refuting "never panics". -/
theorem claim1_counterexample :
    statistics ([] : List Response) = RustResult.panic := rfl

/-- C1, amended: for the empty sample sequence `statistics` panics
via `Option::unwrap` on `None`; it therefore never returns a Report
at all — in particular never a zero-filled one — but the failure is a
panic, not an error value surfaced to the caller. -/
theorem claim1_empty_panics :
    statistics ([] : List Response) = RustResult.panic ∧
    statistics ([] : List Response) ≠ RustResult.ok metricsDefault := by
  refine ⟨rfl, ?_⟩
  intro h
  cases h

/-- C2: for every non-empty sample sequence, the quartiles are the
elements of the ascending-sorted latency list at zero-based indices
`floor(n/4)` and `floor(3n/4)`; for `n = 4` those indices are 1
and 3. -/
theorem claim2_quartile_indices (l : List Response) (m : Metrics)
    (h : statistics l = .ok m) :
    (sortVals (vals l))[l.length / 4]? = some m.quartile_25 ∧
    (sortVals (vals l))[3 * l.length / 4]? = some m.quartile_75 ∧
    (l.length = 4 → l.length / 4 = 1 ∧ 3 * l.length / 4 = 3) := by
  obtain ⟨hne, hok, rfl⟩ := statistics_ok_elim l m h
  have hlen : 0 < l.length := List.length_pos.2 hne
  have hq1 : l.length * 1 / 4 < (sortVals (vals l)).length := by
    rw [length_sortVals, vals_length]
    exact quarter_lt _ hlen
  have hq3 : l.length * 3 / 4 < (sortVals (vals l)).length := by
    rw [length_sortVals, vals_length]
    exact three_quarter_lt _ hlen
  have e1 : l.length * 1 = l.length := Nat.mul_one _
  have e3 : l.length * 3 = 3 * l.length := Nat.mul_comm _ _
  rw [e1] at hq1
  rw [e3] at hq3
  refine ⟨?_, ?_, ?_⟩
  · rw [List.getElem?_eq_getElem hq1]
    have hf : (metricsOf l).quartile_25 = (sortVals (vals l)).getD (l.length * 1 / 4) 0 := rfl
    rw [hf, e1, List.getD_eq_getElem?_getD, List.getElem?_eq_getElem hq1]
    simp
  · rw [List.getElem?_eq_getElem hq3]
    have hf : (metricsOf l).quartile_75 = (sortVals (vals l)).getD (l.length * 3 / 4) 0 := rfl
    rw [hf, e3, List.getD_eq_getElem?_getD, List.getElem?_eq_getElem hq3]
    simp
  · intro h4
    rw [h4]
    omega

/-- C2, witness: on the four-sample run with latencies 7, 1, 2, 0 ms
the quartiles are the sorted elements at indices 1 and 3. -/
theorem claim2_witness :
    (sortVals (vals list4))[1]? = some ((statistics list4).getD metricsDefault).quartile_25 ∧
    (sortVals (vals list4))[3]? = some ((statistics list4).getD metricsDefault).quartile_75 := by
  have h := claim2_quartile_indices list4 ((statistics list4).getD metricsDefault) rfl
  exact ⟨h.1, h.2.1⟩

/-- C5: whenever `statistics` returns a report, its latency mean lies
between its latency minimum and maximum. -/
theorem claim5_min_mean_max (l : List Response) (m : Metrics)
    (h : statistics l = .ok m) :
    m.min_time ≤ m.mean_time ∧ m.mean_time ≤ m.max_time := by
  obtain ⟨hne, hok, rfl⟩ := statistics_ok_elim l m h
  exact ⟨minOf_le_meanOf l hok.2.1, meanOf_le_maxOf l hne hok⟩

/-- C5, witness: the ordering holds on the four-sample run. -/
theorem claim5_witness :
    ((statistics list4).getD metricsDefault).min_time ≤
      ((statistics list4).getD metricsDefault).mean_time ∧
    ((statistics list4).getD metricsDefault).mean_time ≤
      ((statistics list4).getD metricsDefault).max_time :=
  claim5_min_mean_max list4 ((statistics list4).getD metricsDefault) rfl

/-- C9: for every non-empty sample sequence the quartile indices
`n*1/4` and `n*3/4` are strictly below the length of the sorted
latency vector, so both quartile lookups succeed (no out-of-bounds
panic). -/
theorem claim9_index_in_bounds (l : List Response) (hne : l ≠ []) :
    l.length * 1 / 4 < (sortVals (vals l)).length ∧
    l.length * 3 / 4 < (sortVals (vals l)).length ∧
    indexR (sortVals (vals l)) (l.length * 1 / 4) =
      .ok ((sortVals (vals l)).getD (l.length * 1 / 4) 0) ∧
    indexR (sortVals (vals l)) (l.length * 3 / 4) =
      .ok ((sortVals (vals l)).getD (l.length * 3 / 4) 0) := by
  have hlen : 0 < l.length := List.length_pos.2 hne
  have hq1 : l.length * 1 / 4 < (sortVals (vals l)).length := by
    rw [length_sortVals, vals_length]
    exact quarter_lt _ hlen
  have hq3 : l.length * 3 / 4 < (sortVals (vals l)).length := by
    rw [length_sortVals, vals_length]
    exact three_quarter_lt _ hlen
  exact ⟨hq1, hq3, indexR_getD _ _ hq1, indexR_getD _ _ hq3⟩

/-- C9, witness: in-bounds indexing on the singleton run. -/
theorem claim9_witness :
    1 * 1 / 4 < (sortVals (vals [sample durMs1 "200" 0])).length ∧
    1 * 3 / 4 < (sortVals (vals [sample durMs1 "200" 0])).length ∧
    indexR (sortVals (vals [sample durMs1 "200" 0])) (1 * 1 / 4) =
      .ok ((sortVals (vals [sample durMs1 "200" 0])).getD (1 * 1 / 4) 0) ∧
    indexR (sortVals (vals [sample durMs1 "200" 0])) (1 * 3 / 4) =
      .ok ((sortVals (vals [sample durMs1 "200" 0])).getD (1 * 3 / 4) 0) :=
  claim9_index_in_bounds [sample durMs1 "200" 0] (by simp)

/-- C3, amended: whenever `statistics` returns a report, its latency
fields are computed over the sub-second millisecond components: the
mean is the latency sum divided (truncating) by the sample count
reduced modulo `2^32` — hence the exact truncating average whenever
there are fewer than `2^32` samples — and the extrema are the exact
maximum and minimum of those values. -/
theorem claim3_latency_fields (l : List Response) (m : Metrics)
    (h : statistics l = .ok m) :
    m.mean_time = (vals l).sum / (l.length % u32Mod) ∧
    (l.length < u32Mod → m.mean_time = (vals l).sum / l.length) ∧
    m.max_time ∈ vals l ∧ (∀ v ∈ vals l, v ≤ m.max_time) ∧
    m.min_time ∈ vals l ∧ (∀ v ∈ vals l, m.min_time ≤ v) := by
  obtain ⟨hne, hok, rfl⟩ := statistics_ok_elim l m h
  have hvne := vals_ne_nil l hne
  refine ⟨rfl, ?_, maxOf_mem _ hvne, ?_, minOf_mem _ hvne, ?_⟩
  · intro hsmall
    show meanOf l = _
    rw [meanOf, lenU32, Nat.mod_eq_of_lt hsmall]
  · exact fun v hv => le_maxOf (vals l) v hv
  · exact fun v hv => minOf_le (vals l) v hv

/-- C3, witness: mean and extrema equations instantiated on the
four-sample run. -/
theorem claim3_witness :
    ((statistics list4).getD metricsDefault).mean_time =
      (vals list4).sum / (list4.length % u32Mod) ∧
    ((statistics list4).getD metricsDefault).max_time ∈ vals list4 ∧
    ((statistics list4).getD metricsDefault).min_time ∈ vals list4 := by
  have h := claim3_latency_fields list4 ((statistics list4).getD metricsDefault) rfl
  exact ⟨h.1, h.2.2.1, h.2.2.2.2.1⟩

/-- C4, amended: whenever `statistics` returns a report, the
deviation field is the sum of `|value - mean|` over all latency
values divided (truncating) by the sample count reduced modulo
`2^32`; it is non-negative, and it is `0` whenever all latency
values are equal (the converse fails, see the counterexample). -/
theorem claim4_deviation (l : List Response) (m : Metrics)
    (h : statistics l = .ok m) :
    m.variance_time =
      ((vals l).map (fun v => absDiff m.mean_time v)).sum / (l.length % u32Mod) ∧
    0 ≤ m.variance_time ∧
    ((∀ v ∈ vals l, ∀ w ∈ vals l, v = w) → m.variance_time = 0) := by
  obtain ⟨hne, hok, rfl⟩ := statistics_ok_elim l m h
  refine ⟨rfl, Nat.zero_le _, ?_⟩
  intro hall
  obtain ⟨c, cs, hcons⟩ : ∃ c cs, vals l = c :: cs := by
    cases hv : vals l with
    | nil => exact absurd hv (vals_ne_nil l hne)
    | cons c cs => exact ⟨c, cs, rfl⟩
  have hc : ∀ v ∈ vals l, v = c :=
    fun v hv => hall v hv c (by rw [hcons]; exact List.mem_cons_self c cs)
  have hsum : (vals l).sum = l.length * c := by
    apply Nat.le_antisymm
    · have := sum_le_length_mul (vals l) c (fun v hv => le_of_eq (hc v hv))
      rwa [vals_length] at this
    · have := length_mul_le_sum (vals l) c (fun v hv => ge_of_eq (hc v hv))
      rwa [vals_length] at this
  have hmean : meanOf l = c := by
    rw [meanOf, hsum]
    by_cases hsmall : l.length < u32Mod
    · rw [lenU32, Nat.mod_eq_of_lt hsmall,
        Nat.mul_div_cancel_left _ (List.length_pos.2 hne)]
    · have hc0 : c = 0 := by
        by_contra hc0
        have h1 := hok.1
        rw [hsum] at h1
        have : u32Mod ≤ l.length * c :=
          le_trans (le_of_not_lt hsmall)
            (Nat.le_mul_of_pos_right _ (Nat.pos_of_ne_zero hc0))
        omega
      rw [hc0]
      simp
  show (devList l).sum / lenU32 l = 0
  have hdev0 : devList l = List.map (fun _ => 0) (vals l) := by
    apply List.map_congr_left
    intro v hv
    rw [hmean, hc v hv, absDiff]
    simp
  rw [hdev0]
  have : (List.map (fun _ => (0 : Nat)) (vals l)).sum = 0 := by
    simp [List.sum_eq_zero]
  rw [this]
  exact Nat.zero_div _

/-- C4, witness: deviation equation and the all-equal case on a run
of two equal 1 ms samples. -/
theorem claim4_witness :
    ((statistics [sample durMs1 "200" 0, sample durMs1 "200" 0]).getD metricsDefault).variance_time =
      ((vals [sample durMs1 "200" 0, sample durMs1 "200" 0]).map
        (fun v => absDiff ((statistics [sample durMs1 "200" 0, sample durMs1 "200" 0]).getD metricsDefault).mean_time v)).sum /
        ([sample durMs1 "200" 0, sample durMs1 "200" 0].length % u32Mod) ∧
    ((statistics [sample durMs1 "200" 0, sample durMs1 "200" 0]).getD metricsDefault).variance_time = 0 := by
  have h := claim4_deviation [sample durMs1 "200" 0, sample durMs1 "200" 0]
    ((statistics [sample durMs1 "200" 0, sample durMs1 "200" 0]).getD metricsDefault) rfl
  refine ⟨h.1, h.2.2 ?_⟩
  intro v hv w hw
  simp only [vals, List.map_cons, List.map_nil] at hv hw
  rw [List.mem_cons, List.mem_cons] at hv hw
  rcases hv with hv | hv | hv <;> rcases hw with hw | hw | hw <;>
    simp_all

/-- C10, amended: whenever `statistics` returns a report, its
maximum, minimum, both quartiles and the mean are strictly below
1000 (each per-sample value is the sub-second millisecond component,
in `0..=999`); the deviation field is also below 1000 whenever there
are fewer than `2^32` samples (the counterexample shows it can
exceed 1000 beyond that bound). -/
theorem claim10_fields_lt_1000 (l : List Response) (m : Metrics)
    (h : statistics l = .ok m) :
    m.max_time < 1000 ∧ m.min_time < 1000 ∧
    m.quartile_25 < 1000 ∧ m.quartile_75 < 1000 ∧
    m.mean_time < 1000 ∧
    (l.length < u32Mod → m.variance_time < 1000) := by
  obtain ⟨hne, hok, rfl⟩ := statistics_ok_elim l m h
  refine ⟨maxOf_vals_lt l hne, minOf_vals_lt l hne, ?_, ?_,
    meanOf_lt_1000 l hne hok, fun hsmall => variance_lt_1000 l hne hok hsmall⟩
  · exact vals_lt l _ (quartile25_mem l hne)
  · exact vals_lt l _ (quartile75_mem l hne)

/-- C10, witness: the bounds instantiated on the four-sample run. -/
theorem claim10_witness :
    ((statistics list4).getD metricsDefault).max_time < 1000 ∧
    ((statistics list4).getD metricsDefault).mean_time < 1000 ∧
    ((statistics list4).getD metricsDefault).variance_time < 1000 := by
  have h := claim10_fields_lt_1000 list4 ((statistics list4).getD metricsDefault) rfl
  exact ⟨h.1, h.2.2.2.2.1, h.2.2.2.2.2 (by simp [list4, u32Mod])⟩

/-! ### A run of `2^32 + 2` samples

The divisor of the mean and of the deviation is `response.len() as
u32`.  With `2^32 + 2` samples — `2^32 - 1` with latency 0 ms and
three with latency 1 ms — that cast truncates the length to 2, so
the mean becomes `3 / 2 = 1` instead of the true truncating average
`0`, and the deviation field becomes `(2^32 - 1) / 2 = 2147483647`.
All overflow checks pass, so `statistics` returns this report. -/

/-- A 0 ms / status 200 / exit 0 sample. -/
def r0ms : Response := sample durMs0 "200" 0

/-- A 1 ms / status 200 / exit 0 sample. -/
def r1ms : Response := sample durMs1 "200" 0

/-- The `2^32 + 2`-sample run. -/
def bigL : List Response :=
  List.replicate (u32Mod - 1) r0ms ++ List.replicate 3 r1ms

theorem bigL_ne : bigL ≠ [] := by
  simp [bigL]

theorem vals_bigL :
    vals bigL = List.replicate (u32Mod - 1) 0 ++ List.replicate 3 1 := by
  simp [vals, bigL, r0ms, r1ms, sample, durMs0, durMs1, Duration.subsec_millis]

theorem len_bigL : bigL.length = u32Mod + 2 := by
  rw [bigL, List.length_append, List.length_replicate, List.length_replicate]
  have h : (1 : Nat) ≤ u32Mod := by decide
  omega

theorem lenU32_bigL : lenU32 bigL = 2 := by
  rw [lenU32, len_bigL, Nat.add_mod_left]
  decide

theorem sum_vals_bigL : (vals bigL).sum = 3 := by
  rw [vals_bigL, List.sum_append, List.sum_const_nat, List.sum_const_nat]
  omega

theorem one_mem_vals_bigL : (1 : Nat) ∈ vals bigL := by
  rw [vals_bigL]
  exact List.mem_append.2 (Or.inr (by simp [List.mem_replicate]))

theorem mem_vals_bigL (v : Nat) (hv : v ∈ vals bigL) : v = 0 ∨ v = 1 := by
  rw [vals_bigL] at hv
  rcases List.mem_append.1 hv with h | h
  · exact Or.inl (List.eq_of_mem_replicate h)
  · exact Or.inr (List.eq_of_mem_replicate h)

theorem metricsOf_mean_eq (l : List Response) :
    (metricsOf l).mean_time = meanOf l := rfl

theorem metricsOf_var_eq (l : List Response) :
    (metricsOf l).variance_time = (devList l).sum / lenU32 l := rfl

theorem meanOf_bigL : meanOf bigL = 1 := by
  rw [meanOf, sum_vals_bigL, lenU32_bigL]

theorem devList_bigL :
    devList bigL = List.replicate (u32Mod - 1) 1 ++ List.replicate 3 0 := by
  rw [devList]
  simp only [meanOf_bigL]
  rw [vals_bigL, List.map_append, List.map_replicate, List.map_replicate]
  have h0 : absDiff 1 0 = 1 := by decide
  have h1 : absDiff 1 1 = 0 := by decide
  rw [h0, h1]

theorem devSum_bigL : (devList bigL).sum = u32Mod - 1 := by
  rw [devList_bigL, List.sum_append, List.sum_const_nat, List.sum_const_nat]
  omega

theorem statsOk_bigL : statsOk bigL := by
  refine ⟨?_, ?_, ?_⟩
  · rw [sum_vals_bigL]; decide
  · rw [lenU32_bigL]; decide
  · rw [devSum_bigL]; decide

theorem statistics_bigL : statistics bigL = .ok (metricsOf bigL) := by
  rw [statistics_char bigL bigL_ne, if_pos statsOk_bigL]

theorem metricsOf_bigL_mean : (metricsOf bigL).mean_time = 1 := by
  rw [metricsOf_mean_eq, meanOf_bigL]

theorem metricsOf_bigL_var : (metricsOf bigL).variance_time = 2147483647 := by
  rw [metricsOf_var_eq, devSum_bigL, lenU32_bigL]
  decide

/-- C3, counterexample: on the `2^32 + 2`-sample run the mean field
of the report is 1 while the integer-truncating average of the
latency values is 0 — `mean_time` is not the truncating average of
the values. -/
theorem claim3_counterexample :
    RustResult.map Metrics.mean_time (statistics bigL) = .ok 1 ∧
    (vals bigL).sum / bigL.length = 0 := by
  constructor
  · rw [statistics_bigL, RustResult.map_ok, metricsOf_bigL_mean]
  · rw [sum_vals_bigL, len_bigL]
    exact Nat.div_eq_of_lt (by decide)

/-- C4, counterexample: (a) on the two-sample run with latencies 0
and 1 ms the deviation field is 0 although the latency values are
not all equal, refuting the "equals 0 only if all values are equal"
direction; (b) on the `2^32 + 2`-sample run the deviation field is
2147483647 while the truncating average of `|value - mean|` over all
values is 0, refuting "the deviation is the average of
`|value - mean|` over all values". -/
theorem claim4_counterexample :
    RustResult.map Metrics.variance_time (statistics list2) = .ok 0 ∧
    vals list2 = [0, 1] ∧
    RustResult.map Metrics.variance_time (statistics bigL) = .ok 2147483647 ∧
    ((vals bigL).map (fun v => absDiff 1 v)).sum / bigL.length = 0 := by
  refine ⟨rfl, rfl, ?_, ?_⟩
  · rw [statistics_bigL, RustResult.map_ok, metricsOf_bigL_var]
  · rw [vals_bigL]
    simp only [List.map_append, List.map_replicate]
    have h0 : absDiff 1 0 = 1 := by decide
    have h1 : absDiff 1 1 = 0 := by decide
    rw [h0, h1]
    have hs : (List.replicate (u32Mod - 1) 1 ++ List.replicate 3 (0 : Nat)).sum
        = u32Mod - 1 := by
      rw [List.sum_append, List.sum_const_nat, List.sum_const_nat]
      omega
    rw [hs, len_bigL]
    exact Nat.div_eq_of_lt (by decide)

/-- C10, counterexample: on the `2^32 + 2`-sample run the deviation
field of the report is 2147483647, which is not below 1000 — not
every latency field of the report is strictly below 1000. -/
theorem claim10_counterexample :
    RustResult.map Metrics.variance_time (statistics bigL) = .ok 2147483647 ∧
    ¬ (2147483647 < 1000) := by
  constructor
  · rw [statistics_bigL, RustResult.map_ok, metricsOf_bigL_var]
  · decide

/-! ### Claim C6: the request executors -/

/-- C6, counterexample: the external-process executor `call_curl`
does not always return a Sample — it panics (unwrap of
`Command::output` and of `ExitStatus::code`) when the curl process
cannot be spawned, and when the process terminates without an exit
code. -/
theorem claim6_counterexample :
    call_curl CurlOutcome.spawnError durMs1 = RustResult.panic ∧
    call_curl (CurlOutcome.completed none "200" "") durMs1 = RustResult.panic :=
  ⟨rfl, rfl⟩

/-- C6, amended: the built-in executor never fails — on every path it
returns a Sample, with exit 1 and the sentinel status
`"client error"` on a build or send failure, and exit 0 with the
response status on success; the external executor returns a Sample
with the same field contract whenever the spawned process completes
with an exit code, but panics when the spawn fails or the process
has no exit code. -/
theorem claim6_executor_contract :
    (∀ (sr : Except String String) (d : Duration) (e : String),
      call_builtin (.error e) sr d =
        { time := d, status_code := "client error", exit_status := 1, error := e }) ∧
    (∀ (d : Duration) (e : String),
      call_builtin (.ok ()) (.error e) d =
        { time := d, status_code := "client error", exit_status := 1, error := e }) ∧
    (∀ (d : Duration) (st : String),
      call_builtin (.ok ()) (.ok st) d =
        { time := d, status_code := st, exit_status := 0, error := "" }) ∧
    (∀ (c : Int) (stdout stderr : String) (d : Duration), c ≠ 0 →
      call_curl (.completed (some c) stdout stderr) d =
        .ok { time := d, status_code := "client error", exit_status := c, error := stderr }) ∧
    (∀ (stdout stderr : String) (d : Duration),
      call_curl (.completed (some 0) stdout stderr) d =
        .ok { time := d, status_code := stdout, exit_status := 0, error := stderr }) ∧
    call_curl CurlOutcome.spawnError durMs1 = RustResult.panic := by
  refine ⟨fun sr d e => rfl, fun d e => rfl, fun d st => rfl, ?_, ?_, rfl⟩
  · intro c stdout stderr d hc
    simp [call_curl, hc]
  · intro stdout stderr d
    simp [call_curl]

/-- C6, witness: the contract instantiated on a failing curl exit
(code 7) and on a successful built-in send. -/
theorem claim6_witness :
    call_curl (.completed (some 7) "000" "connection refused") durMs1 =
      .ok { time := durMs1, status_code := "client error",
            exit_status := 7, error := "connection refused" } ∧
    call_builtin (.ok ()) (.ok "200 OK") durMs2 =
      { time := durMs2, status_code := "200 OK", exit_status := 0, error := "" } :=
  ⟨claim6_executor_contract.2.2.2.1 7 "000" "connection refused" durMs1 (by decide),
   claim6_executor_contract.2.2.1 durMs2 "200 OK"⟩

/-! ### Claim C8: `--tls-max` validation -/

/-- C8: for every parsed argument record whose `--tls-max` value is
not one of `1.0`, `1.1`, `1.2`, `1.3`, `WebClient::build` never
succeeds (it returns an error for every outcome of the external
library calls), and when the URL stage passes, the error returned is
exactly the message naming the invalid value and the set of accepted
values.  No request is involved: `build` only constructs the
client. -/
theorem claim8_tls_max_rejected (a : WRArgs) (v : String) (ext : BuildExternals)
    (hv : a.tls_max = some v)
    (hnv : v ∉ (["1.0", "1.1", "1.2", "1.3"] : List String))
    (hurl : ext.urlParse (buildUrlString a.url) = .ok ()) :
    WebClient.build (.ok a) ext = .ok (.error (tlsMaxMessage v)) ∧
    tlsMaxMessage v =
      "error: invalid value \x27" ++ v ++
        "\x27 for \x27--tls-max <VERSION>\x27\n possible values: 1.0, 1.1, 1.2, 1.3" ∧
    (∀ ext2 : BuildExternals, ∃ e, WebClient.build (.ok a) ext2 = .ok (.error e)) := by
  simp only [List.mem_cons, List.not_mem_nil, or_false, not_or] at hnv
  obtain ⟨h10, h11, h12, h13⟩ := hnv
  have htls : tlsMaxCheck v = .error (tlsMaxMessage v) := by
    rw [tlsMaxCheck, if_neg h10, if_neg h11, if_neg h12, if_neg h13]
  refine ⟨?_, rfl, ?_⟩
  · simp only [WebClient.build, hurl, hv, htls]
  · intro ext2
    cases hu : ext2.urlParse (buildUrlString a.url) with
    | error e => exact ⟨e, by simp only [WebClient.build, hu]⟩
    | ok u =>
      cases u
      exact ⟨tlsMaxMessage v, by simp only [WebClient.build, hu, hv, htls]⟩

/-- A parsed argument record carrying the invalid value `9.9` for
`--tls-max`. -/
def wrArgsBadTls : WRArgs :=
  { url := "localhost", data := none, user_agent := none,
    method := .get, header := [], insecure := false,
    http09 := false, http10 := false, http11 := false,
    http2 := false, http3 := false,
    tlsv1 := false, tlsv10 := false, tlsv11 := false,
    tlsv12 := false, tlsv13 := false, tls_max := some "9.9" }

/-- External outcomes in which every library call succeeds. -/
def extAllOk : BuildExternals :=
  { urlParse := fun _ => .ok (), clientBuild := .ok (), requestBuild := .ok () }

/-- C8, witness: with `--tls-max 9.9` and all library calls
succeeding, the build returns exactly the invalid-value error. -/
theorem claim8_witness :
    WebClient.build (.ok wrArgsBadTls) extAllOk =
      .ok (.error (tlsMaxMessage "9.9")) :=
  (claim8_tls_max_rejected wrArgsBadTls "9.9" extAllOk rfl (by decide) rfl).1

/-! ### Claim C7: permutation invariance of the aggregator -/

theorem foldl_statusStep_some (l : List String) :
    ∀ (acc : String → Option Nat) (s : String) (k : Nat), acc s = some k →
      (l.foldl statusStep acc) s = some (k + l.count s) := by
  induction l with
  | nil =>
    intro acc s k h
    simpa using h
  | cons x l ih =>
    intro acc s k h
    rw [List.foldl_cons]
    by_cases hs : s = x
    · subst hs
      have hstep : (statusStep acc s) s = some (k + 1) := by
        unfold statusStep
        rw [h]
        simp
      rw [ih (statusStep acc s) s (k + 1) hstep, List.count_cons_self]
      congr 1
      omega
    · have hstep : (statusStep acc x) s = some k := by
        unfold statusStep
        cases hax : acc x <;> simp [hs, h]
      rw [ih _ s k hstep, List.count_cons_of_ne hs]

theorem foldl_statusStep_none (l : List String) :
    ∀ (acc : String → Option Nat) (s : String), acc s = none →
      (l.foldl statusStep acc) s =
        if l.count s = 0 then none else some (l.count s) := by
  induction l with
  | nil =>
    intro acc s h
    simpa using h
  | cons x l ih =>
    intro acc s h
    rw [List.foldl_cons]
    by_cases hs : s = x
    · subst hs
      have hstep : (statusStep acc s) s = some 1 := by
        unfold statusStep
        rw [h]
        simp
      rw [foldl_statusStep_some l (statusStep acc s) s 1 hstep,
        List.count_cons_self, if_neg (by omega)]
      congr 1
      omega
    · have hstep : (statusStep acc x) s = none := by
        unfold statusStep
        cases hax : acc x <;> simp [hs, h]
      rw [ih _ s hstep, List.count_cons_of_ne hs]

/-- The status histogram is semantically the occurrence count: a key
maps to its number of occurrences, absent when that is zero. -/
theorem statusCount_eq_count (l : List String) (s : String) :
    statusCount l s = if l.count s = 0 then none else some (l.count s) :=
  foldl_statusStep_none l (fun _ => none) s rfl

theorem maxOf_perm (xs ys : List Nat) (h : xs.Perm ys) (hne : xs ≠ []) :
    maxOf xs = maxOf ys := by
  have hne2 : ys ≠ [] := by
    intro hy
    subst hy
    exact hne h.eq_nil
  apply Nat.le_antisymm
  · exact le_maxOf ys (maxOf xs) (h.mem_iff.1 (maxOf_mem xs hne))
  · exact le_maxOf xs (maxOf ys) (h.mem_iff.2 (maxOf_mem ys hne2))

theorem minOf_perm (xs ys : List Nat) (h : xs.Perm ys) (hne : xs ≠ []) :
    minOf xs = minOf ys := by
  have hne2 : ys ≠ [] := by
    intro hy
    subst hy
    exact hne h.eq_nil
  apply Nat.le_antisymm
  · exact minOf_le xs (minOf ys) (h.mem_iff.2 (minOf_mem ys hne2))
  · exact minOf_le ys (minOf xs) (h.mem_iff.1 (minOf_mem xs hne))

theorem sortVals_perm_eq (xs ys : List Nat) (h : xs.Perm ys) :
    sortVals xs = sortVals ys := by
  have h1 : List.Sorted (· ≤ ·) (sortVals xs) := List.sorted_insertionSort _ xs
  have h2 : List.Sorted (· ≤ ·) (sortVals ys) := List.sorted_insertionSort _ ys
  exact List.eq_of_perm_of_sorted
    ((List.perm_insertionSort _ xs).trans (h.trans (List.perm_insertionSort _ ys).symm)) h1 h2

/-- Semantic equality of two reports: all numeric fields equal and
the status histograms agree on every key (the Rust `HashMap`
equality). -/
def MetricsExtEq (a b : Metrics) : Prop :=
  a.mean_time = b.mean_time ∧ a.max_time = b.max_time ∧
  a.min_time = b.min_time ∧ a.variance_time = b.variance_time ∧
  a.quartile_25 = b.quartile_25 ∧ a.quartile_75 = b.quartile_75 ∧
  (∀ s, a.status_count s = b.status_count s) ∧ a.error_count = b.error_count

/-- Semantic equality of two aggregation outcomes: both panic, or
both return semantically equal reports. -/
def RustResultMetricsEq : RustResult Metrics → RustResult Metrics → Prop
  | .ok a, .ok b => MetricsExtEq a b
  | .panic, .panic => True
  | _, _ => False

theorem vals_perm (l l' : List Response) (h : l.Perm l') :
    (vals l).Perm (vals l') := h.map _

theorem vals_sum_perm (l l' : List Response) (h : l.Perm l') :
    (vals l).sum = (vals l').sum := (vals_perm l l' h).sum_eq

theorem lenU32_perm (l l' : List Response) (h : l.Perm l') :
    lenU32 l = lenU32 l' := by
  rw [lenU32, lenU32, h.length_eq]

theorem meanOf_perm (l l' : List Response) (h : l.Perm l') :
    meanOf l = meanOf l' := by
  rw [meanOf, meanOf, vals_sum_perm l l' h, lenU32_perm l l' h]

theorem devList_perm (l l' : List Response) (h : l.Perm l') :
    (devList l).Perm (devList l') := by
  rw [devList, devList]
  simp only [meanOf_perm l l' h]
  exact (vals_perm l l' h).map _

theorem statsOk_perm_iff (l l' : List Response) (h : l.Perm l') :
    statsOk l ↔ statsOk l' := by
  rw [statsOk, statsOk, vals_sum_perm l l' h, lenU32_perm l l' h,
    (devList_perm l l' h).sum_eq]

theorem metricsOf_ext_perm (l l' : List Response) (h : l.Perm l') (hne : l ≠ []) :
    MetricsExtEq (metricsOf l) (metricsOf l') := by
  have hv : (vals l).Perm (vals l') := h.map _
  have hvne : vals l ≠ [] := vals_ne_nil l hne
  refine ⟨meanOf_perm l l' h, maxOf_perm _ _ hv hvne, minOf_perm _ _ hv hvne,
    ?_, ?_, ?_, ?_, ?_⟩
  · show (devList l).sum / lenU32 l = (devList l').sum / lenU32 l'
    rw [(devList_perm l l' h).sum_eq, lenU32_perm l l' h]
  · show (sortVals (vals l)).getD (l.length * 1 / 4) 0
        = (sortVals (vals l')).getD (l'.length * 1 / 4) 0
    rw [sortVals_perm_eq _ _ hv, h.length_eq]
  · show (sortVals (vals l)).getD (l.length * 3 / 4) 0
        = (sortVals (vals l')).getD (l'.length * 3 / 4) 0
    rw [sortVals_perm_eq _ _ hv, h.length_eq]
  · intro s
    show statusCount (l.map (fun x => x.status_code)) s
        = statusCount (l'.map (fun x => x.status_code)) s
    have hc : (l.map (fun x => x.status_code)).count s
        = (l'.map (fun x => x.status_code)).count s := (h.map _).count_eq s
    rw [statusCount_eq_count, statusCount_eq_count, hc]
  · show errorCount l = errorCount l'
    rw [errorCount, errorCount]
    exact ((h.map _).filter _).length_eq

/-- C7: the aggregator is permutation-invariant — for every pair of
sample sequences that are permutations of each other, `statistics`
panics on one iff it panics on the other, and otherwise returns
semantically equal reports (same mean, extrema, deviation,
quartiles, status histogram and error count). -/
theorem claim7_permutation_invariant (l l' : List Response) (h : l.Perm l') :
    RustResultMetricsEq (statistics l) (statistics l') := by
  by_cases hne : l = []
  · subst hne
    have hl' : l' = [] := h.symm.eq_nil
    subst hl'
    rw [statistics_nil]
    exact trivial
  · have hne' : l' ≠ [] := by
      intro hl'
      subst hl'
      exact hne h.eq_nil
    rw [statistics_char l hne, statistics_char l' hne']
    by_cases hok : statsOk l
    · rw [if_pos hok, if_pos ((statsOk_perm_iff l l' h).1 hok)]
      exact metricsOf_ext_perm l l' h hne
    · rw [if_neg hok, if_neg (fun h' => hok ((statsOk_perm_iff l l' h).2 h'))]
      exact trivial

/-- C7, witness: swapping the two samples of the two-sample run
leaves the aggregation outcome semantically unchanged. -/
theorem claim7_witness :
    RustResultMetricsEq (statistics [r0ms, r1ms]) (statistics [r1ms, r0ms]) :=
  claim7_permutation_invariant [r0ms, r1ms] [r1ms, r0ms]
    (List.Perm.swap r1ms r0ms [])

end XCurl
